/-
  Verification of the surround-sound rotation pipeline
  (speaker geometry, surround rotator, stereo rotator, upmixer,
  audio-callback shape handling).

  Angles and yaw values are modelled as rationals, audio samples as reals.
  An audio frame is modelled as a function from (channel index, sample index)
  to a real amplitude, matching the elementwise numpy operations of the code.
-/
import Mathlib

open Real

/-! ### Speaker geometry -/

/-- Python's `x % 360` on reals/rationals: `x - 360 * ⌊x / 360⌋`. -/
def qmod360 (x : ℚ) : ℚ := x - 360 * ⌊x / 360⌋

/-- Normalization to `(-180, 180]` used by both rotators:
    `a % 360` followed by `if a > 180: a -= 360`. -/
def norm180 (x : ℚ) : ℚ :=
  let m := qmod360 x
  if m > 180 then m - 360 else m

/-- Surround formats supported by the rotator ("5.1" / "7.1"). -/
inductive SurroundFormat
  | five1
  | seven1
deriving DecidableEq

/-- Embeds `self.num_channels = 6 if format == "5.1" else 8`. -/
def numChannels : SurroundFormat → ℕ
  | .five1 => 6
  | .seven1 => 8

/-- Table `SPEAKER_ANGLES_71`: ITU-R BS.775-3 positions (0° = front, positive = clockwise). -/
def SPEAKER_ANGLES_71 : ℕ → ℚ
  | 0 => 30      -- L (Front Left)
  | 1 => -30     -- R (Front Right)
  | 2 => 0       -- C (Center)
  | 3 => 0       -- LFE (Subwoofer - non-directional)
  | 4 => 110     -- LS (Left Surround)
  | 5 => -110    -- RS (Right Surround)
  | 6 => 150     -- LB (Left Back)
  | 7 => -150    -- RB (Right Back)
  | _ => 0

/-- Table `SPEAKER_ANGLES_51`. -/
def SPEAKER_ANGLES_51 : ℕ → ℚ
  | 0 => 30      -- L
  | 1 => -30     -- R
  | 2 => 0       -- C
  | 3 => 0       -- LFE
  | 4 => 110     -- LS
  | 5 => -110    -- RS
  | _ => 0

/-- Lookup `self.SPEAKER_ANGLES`, selected by the configured format. -/
def SPEAKER_ANGLES : SurroundFormat → ℕ → ℚ
  | .five1 => SPEAKER_ANGLES_51
  | .seven1 => SPEAKER_ANGLES_71

/-- Function `_angle_distance`: shortest angular distance between two angles, in [0, 180].
    `diff = abs(angle1 - angle2) % 360; if diff > 180: diff = 360 - diff`. -/
def angle_distance (angle1 angle2 : ℚ) : ℚ :=
  let diff := qmod360 |angle1 - angle2|
  if diff > 180 then 360 - diff else diff

/-- Embeds `spatial_channels = [i for i in range(self.num_channels) if i != 3]`. -/
def spatial_channels (fmt : SurroundFormat) : List ℕ :=
  (List.range (numChannels fmt)).filter (fun i => i ≠ 3)

/-- Distance of a channel's table angle to the target angle (the sort key in
    `_amplitude_pan`). -/
def chDist (fmt : SurroundFormat) (target : ℚ) (ch : ℕ) : ℚ :=
  angle_distance (SPEAKER_ANGLES fmt ch) target

/-- Embeds `closest_channels = sorted(spatial_channels, key=dist)[:2]`.
    Python's `sorted` is a stable sort; `List.insertionSort` with a non-strict
    key comparison has the same semantics. -/
def closest_channels (fmt : SurroundFormat) (target : ℚ) : List ℕ :=
  ((spatial_channels fmt).insertionSort
    (fun a b => chDist fmt target a ≤ chDist fmt target b)).take 2

/-! ### Spec-side panning weights (for the refinement claim C1) -/

/-- Modelled from the spec (§4.3), for comparison with the code: the
constant-power panning weights between the two closest channels.  Let `d1, d2`
be their angular distances to the target; if `d1 + d2 < 0.1°` the weight pair
is `(1, 0)` for the closest speaker; otherwise `t = d1 / (d1 + d2)` and the
weights are `(cos(t·π/2), sin(t·π/2))`. -/
noncomputable def spec_pan_weights (d1 d2 : ℚ) : ℝ × ℝ :=
  if d1 + d2 < 1/10 then (1, 0)
  else (Real.cos ((d1 / (d1 + d2) : ℚ) * Real.pi / 2),
        Real.sin ((d1 / (d1 + d2) : ℚ) * Real.pi / 2))

/-! ### Basic facts about `qmod360` and `angle_distance` -/

lemma qmod360_nonneg (x : ℚ) : 0 ≤ qmod360 x := by
  have h := Int.floor_le (x / 360)
  unfold qmod360
  nlinarith [h]

lemma qmod360_lt (x : ℚ) : qmod360 x < 360 := by
  have h := Int.lt_floor_add_one (x / 360)
  unfold qmod360
  nlinarith [h]

lemma qmod360_add_eq (x y : ℚ) (hy : qmod360 y = 0) :
    qmod360 (x + y) = qmod360 x := by
  have hy' : y = 360 * (⌊y / 360⌋ : ℚ) := by
    unfold qmod360 at hy; linarith
  rw [hy']
  unfold qmod360
  have : (x + 360 * (⌊y / 360⌋ : ℚ)) / 360 = x / 360 + (⌊y / 360⌋ : ℚ) := by ring
  rw [this, Int.floor_add_int]
  push_cast
  ring

lemma angle_distance_nonneg (a b : ℚ) : 0 ≤ angle_distance a b := by
  unfold angle_distance
  have h1 := qmod360_nonneg |a - b|
  have h2 := qmod360_lt |a - b|
  dsimp only
  split <;> linarith

lemma angle_distance_le_180 (a b : ℚ) : angle_distance a b ≤ 180 := by
  unfold angle_distance
  have h1 := qmod360_nonneg |a - b|
  have h2 := qmod360_lt |a - b|
  dsimp only
  split <;> linarith

/-- The value `angle_distance a b` is a lower bound for the distance from `a - b` to any
multiple of 360. -/
lemma angle_distance_le_abs (a b : ℚ) (k : ℤ) :
    angle_distance a b ≤ |a - b - 360 * k| := by
  set m := qmod360 |a - b| with hm
  have hj : m = |a - b| - 360 * (⌊|a - b| / 360⌋ : ℚ) := by rw [hm]; rfl
  set j : ℤ := ⌊|a - b| / 360⌋ with hjdef
  have hm0 : 0 ≤ m := qmod360_nonneg _
  have hm1 : m < 360 := qmod360_lt _
  have key : ∀ n : ℤ, (if m > 180 then 360 - m else m) ≤ |m + 360 * n| := by
    intro n
    rcases le_or_lt 0 n with hn | hn
    · have hn' : (0 : ℚ) ≤ (n : ℚ) := by exact_mod_cast hn
      rw [abs_of_nonneg (by linarith)]
      split <;> linarith
    · have hn1 : n ≤ -1 := by omega
      have hn' : (n : ℚ) ≤ -1 := by exact_mod_cast hn1
      rw [abs_of_nonpos (by nlinarith)]
      split <;> nlinarith
  rcases le_or_lt 0 (a - b) with hab | hab
  · have habs : |a - b| = a - b := abs_of_nonneg hab
    have : a - b - 360 * (k : ℚ) = m + 360 * ((j - k : ℤ) : ℚ) := by
      push_cast; rw [hj, habs]; ring
    rw [angle_distance, this]
    exact key (j - k)
  · have habs : |a - b| = -(a - b) := abs_of_neg hab
    have : a - b - 360 * (k : ℚ) = -(m + 360 * ((j + k : ℤ) : ℚ)) := by
      push_cast; rw [hj, habs]; ring
    rw [angle_distance, this, abs_neg]
    exact key (j + k)

/-- The value `angle_distance a b` is attained as the distance from `a - b` to some
multiple of 360. -/
lemma exists_angle_distance_eq (a b : ℚ) :
    ∃ k : ℤ, angle_distance a b = |a - b - 360 * k| := by
  set m := qmod360 |a - b| with hm
  have hj : m = |a - b| - 360 * (⌊|a - b| / 360⌋ : ℚ) := by rw [hm]; rfl
  set j : ℤ := ⌊|a - b| / 360⌋ with hjdef
  have hm0 : 0 ≤ m := qmod360_nonneg _
  have hm1 : m < 360 := qmod360_lt _
  rcases le_or_lt 0 (a - b) with hab | hab
  · have habs : a - b = m + 360 * (j : ℚ) := by
      have := abs_of_nonneg hab; rw [this] at hj; linarith
    by_cases h180 : m > 180
    · refine ⟨j + 1, ?_⟩
      rw [angle_distance, ← hm, if_pos h180]
      push_cast
      rw [habs, show m + 360 * (j : ℚ) - 360 * ((j : ℚ) + 1) = -(360 - m) by ring,
        abs_neg, abs_of_nonneg (by linarith)]
    · refine ⟨j, ?_⟩
      rw [angle_distance, ← hm, if_neg h180]
      rw [habs, show m + 360 * (j : ℚ) - 360 * (j : ℚ) = m by ring,
        abs_of_nonneg hm0]
  · have habs : a - b = -(m + 360 * (j : ℚ)) := by
      have := abs_of_neg hab; rw [this] at hj; linarith
    by_cases h180 : m > 180
    · refine ⟨-(j + 1), ?_⟩
      rw [angle_distance, ← hm, if_pos h180]
      push_cast
      rw [habs, show -(m + 360 * (j : ℚ)) - 360 * (-((j : ℚ) + 1)) = 360 - m by ring,
        abs_of_nonneg (by linarith)]
    · refine ⟨-j, ?_⟩
      rw [angle_distance, ← hm, if_neg h180]
      push_cast
      rw [habs, show -(m + 360 * (j : ℚ)) - 360 * (-(j : ℚ)) = -m by ring,
        abs_neg, abs_of_nonneg hm0]

/-- The shortest-angular-distance function is a metric: triangle inequality. -/
lemma angle_distance_triangle (a b c : ℚ) :
    angle_distance a c ≤ angle_distance a b + angle_distance b c := by
  obtain ⟨k₁, h₁⟩ := exists_angle_distance_eq a b
  obtain ⟨k₂, h₂⟩ := exists_angle_distance_eq b c
  have h3 := angle_distance_le_abs a c (k₁ + k₂)
  have h4 : a - c - 360 * ((k₁ + k₂ : ℤ) : ℚ) =
      (a - b - 360 * (k₁ : ℚ)) + (b - c - 360 * (k₂ : ℚ)) := by push_cast; ring
  calc angle_distance a c ≤ |a - c - 360 * ((k₁ + k₂ : ℤ) : ℚ)| := h3
    _ ≤ |a - b - 360 * (k₁ : ℚ)| + |b - c - 360 * (k₂ : ℚ)| := by
        rw [h4]; exact abs_add _ _
    _ = angle_distance a b + angle_distance b c := by rw [h₁, h₂]

/-! ### Stability of the sort in `_amplitude_pan`

Python's `sorted` is stable: channels with equal distance keep their original
relative order, and `spatial_channels` is listed in increasing index order, so
ties are broken by lowest channel index.  `List.insertionSort` with a
non-strict comparison has the same property, proved here: the sorted list is
pairwise ordered lexicographically by (distance, channel index). -/

section Stability

variable (dist : ℕ → ℚ)

/-- The lexicographic order (distance first, then original index). -/
def DistLex (dist : ℕ → ℚ) (x y : ℕ) : Prop :=
  dist x < dist y ∨ (dist x = dist y ∧ x < y)

lemma pairwise_orderedInsert_lex (a : ℕ) :
    ∀ ys : List ℕ, ys.Pairwise (DistLex dist) → (∀ y ∈ ys, a < y) →
      (ys.orderedInsert (fun x y => dist x ≤ dist y) a).Pairwise (DistLex dist)
  | [], _, _ => by simp [List.orderedInsert, List.pairwise_singleton]
  | y :: t, hp, ha => by
      rw [List.orderedInsert]
      split_ifs with hr
      · refine List.pairwise_cons.mpr ⟨?_, hp⟩
        intro z hz
        rcases List.mem_cons.mp hz with rfl | hzt
        · rcases lt_or_eq_of_le hr with h | h
          · exact Or.inl h
          · exact Or.inr ⟨h, ha z (List.mem_cons_self _ _)⟩
        · have hyz := (List.pairwise_cons.mp hp).1 z hzt
          have hdyz : dist y ≤ dist z := by
            rcases hyz with h | ⟨h, _⟩
            · exact le_of_lt h
            · exact le_of_eq h
          have haz : dist a ≤ dist z := le_trans hr hdyz
          rcases lt_or_eq_of_le haz with h | h
          · exact Or.inl h
          · exact Or.inr ⟨h, ha z (List.mem_cons_of_mem _ hzt)⟩
      · push_neg at hr
        refine List.pairwise_cons.mpr ⟨?_, ?_⟩
        · intro z hz
          rcases (List.mem_orderedInsert _).mp hz with rfl | hzt
          · exact Or.inl hr
          · exact (List.pairwise_cons.mp hp).1 z hzt
        · exact pairwise_orderedInsert_lex a t (List.pairwise_cons.mp hp).2
            (fun y hy => ha y (List.mem_cons_of_mem _ hy))

lemma pairwise_insertionSort_lex :
    ∀ l : List ℕ, l.Pairwise (· < ·) →
      (l.insertionSort (fun x y => dist x ≤ dist y)).Pairwise (DistLex dist)
  | [], _ => by simp [List.insertionSort]
  | a :: l, hp => by
      rw [List.insertionSort]
      refine pairwise_orderedInsert_lex dist a _
        (pairwise_insertionSort_lex l (List.Pairwise.of_cons hp)) ?_
      intro y hy
      exact (List.pairwise_cons.mp hp).1 y
        ((List.mem_insertionSort _).mp hy)

end Stability

/-! ### Characterization of the two selected channels -/

lemma spatial_pairwise (fmt : SurroundFormat) :
    (spatial_channels fmt).Pairwise (· < ·) := by
  cases fmt <;> decide

lemma spatial_two_le (fmt : SurroundFormat) :
    2 ≤ (spatial_channels fmt).length := by
  cases fmt <;> decide

/-- Spec §4.3: `c1` and `c2` are the two spatial (non-LFE) channels whose
speaker angles are angularly closest to the target angle, ranked by the
shortest-angular-distance function, with ties broken by lowest channel
index. -/
def IsTwoClosest (fmt : SurroundFormat) (target : ℚ) (c1 c2 : ℕ) : Prop :=
  c1 ∈ spatial_channels fmt ∧ c2 ∈ spatial_channels fmt ∧ c1 ≠ c2 ∧
  (∀ c ∈ spatial_channels fmt, c ≠ c1 → DistLex (chDist fmt target) c1 c) ∧
  (∀ c ∈ spatial_channels fmt, c ≠ c1 → c ≠ c2 →
    DistLex (chDist fmt target) c2 c)

/-- The code's `sorted(spatial_channels, key=dist)[:2]` returns exactly the
two closest channels in the sense of the specification. -/
lemma closest_channels_spec (fmt : SurroundFormat) (target : ℚ) :
    ∃ c1 c2, closest_channels fmt target = [c1, c2] ∧
      IsTwoClosest fmt target c1 c2 := by
  have hperm : List.Perm ((spatial_channels fmt).insertionSort
      (fun a b => chDist fmt target a ≤ chDist fmt target b))
      (spatial_channels fmt) := List.perm_insertionSort _ _
  have hlen : 2 ≤ ((spatial_channels fmt).insertionSort
      (fun a b => chDist fmt target a ≤ chDist fmt target b)).length := by
    rw [hperm.length_eq]; exact spatial_two_le fmt
  have hlex := pairwise_insertionSort_lex (chDist fmt target) _
    (spatial_pairwise fmt)
  have hnodup : ((spatial_channels fmt).insertionSort
      (fun a b => chDist fmt target a ≤ chDist fmt target b)).Nodup :=
    hperm.nodup_iff.mpr ((spatial_pairwise fmt).imp ne_of_lt)
  obtain ⟨c1, c2, rest, hmatch⟩ : ∃ c1 c2 rest,
      (spatial_channels fmt).insertionSort
        (fun a b => chDist fmt target a ≤ chDist fmt target b) =
        c1 :: c2 :: rest := by
    match hm : (spatial_channels fmt).insertionSort
        (fun a b => chDist fmt target a ≤ chDist fmt target b) with
    | [] => rw [hm] at hlen; simp at hlen
    | [c] => rw [hm] at hlen; simp at hlen
    | c1 :: c2 :: rest => exact ⟨c1, c2, rest, rfl⟩
  rw [hmatch] at hperm hlex hnodup
  have hmem : ∀ c, c ∈ spatial_channels fmt ↔ c ∈ c1 :: c2 :: rest :=
    fun c => hperm.mem_iff.symm
  refine ⟨c1, c2, ?_, ?_⟩
  · rw [closest_channels, hmatch]; rfl
  unfold IsTwoClosest
  refine ⟨?_, ?_, ?_, ?_, ?_⟩
  · exact (hmem c1).mpr (List.mem_cons_self _ _)
  · exact (hmem c2).mpr (List.mem_cons_of_mem _ (List.mem_cons_self _ _))
  · intro h
    exact (List.pairwise_cons.mp hnodup).1 c2 (List.mem_cons_self _ _) h
  · intro c hc hne
    have hc2 : c ∈ c2 :: rest := by
      rcases List.mem_cons.mp ((hmem c).mp hc) with rfl | h
      · exact absurd rfl hne
      · exact h
    exact (List.pairwise_cons.mp hlex).1 c hc2
  · intro c hc hne1 hne2
    have hmem2 : c ∈ c2 :: rest := by
      rcases List.mem_cons.mp ((hmem c).mp hc) with rfl | h
      · exact absurd rfl hne1
      · exact h
    have hcr : c ∈ rest := by
      rcases List.mem_cons.mp hmem2 with rfl | h
      · exact absurd rfl hne2
      · exact h
    exact (List.pairwise_cons.mp (List.Pairwise.of_cons hlex)).1 c hcr

/-! ### Surround rotator -/

/-- Function `_amplitude_pan(surround_frame, target_angle)`: blend between the two
    speakers closest to the target angle with constant-power weights.
    The frame is a function (channel, sample index) ↦ amplitude; the numpy
    expressions act elementwise, so the result is given per sample index. -/
noncomputable def amplitude_pan (fmt : SurroundFormat) (frame : ℕ → ℕ → ℝ)
    (target_angle : ℚ) : ℕ → ℝ :=
  match closest_channels fmt target_angle with
  | [] => fun _ => 0
  | [ch] => fun i => frame ch i
  | ch1 :: ch2 :: _ => fun i =>
      let dist1 := angle_distance (SPEAKER_ANGLES fmt ch1) target_angle
      let dist2 := angle_distance (SPEAKER_ANGLES fmt ch2) target_angle
      let total_dist := dist1 + dist2
      if total_dist < 1/10 then
        1 * frame ch1 i + 0 * frame ch2 i
      else
        Real.cos ((dist1 / total_dist : ℚ) * Real.pi / 2) * frame ch1 i +
        Real.sin ((dist1 / total_dist : ℚ) * Real.pi / 2) * frame ch2 i

/-- Function `SurroundRotator.rotate(surround_frame, yaw_degrees)`.  Output channels
    beyond the format's channel count stay at the `np.zeros` initialization. -/
noncomputable def rotate (fmt : SurroundFormat) (frame : ℕ → ℕ → ℝ)
    (yaw_degrees : ℚ) : ℕ → ℕ → ℝ :=
  fun out_channel i =>
    if out_channel < numChannels fmt then
      if out_channel = 3 then
        frame 3 i
      else
        amplitude_pan fmt frame
          (norm180 (SPEAKER_ANGLES fmt out_channel + yaw_degrees)) i
    else 0

/-! ### Claim C1 -/

/-- C1: for every yaw and every non-LFE output channel, `rotate` selects
the two spatial channels closest (shortest angular distance, ties by lowest
channel index) to the normalized target angle `speaker_angle[out] + yaw` and
outputs `w1·source[first] + w2·source[second]` with the spec's equal-power
weights (`(1,0)` when `d1 + d2 < 0.1`). -/
theorem C1_rotate_selects_closest_equal_power (fmt : SurroundFormat)
    (frame : ℕ → ℕ → ℝ) (yaw : ℚ) (out i : ℕ)
    (h1 : out < numChannels fmt) (h2 : out ≠ 3) :
    ∃ c1 c2,
      IsTwoClosest fmt (norm180 (SPEAKER_ANGLES fmt out + yaw)) c1 c2 ∧
      rotate fmt frame yaw out i =
        (spec_pan_weights
            (chDist fmt (norm180 (SPEAKER_ANGLES fmt out + yaw)) c1)
            (chDist fmt (norm180 (SPEAKER_ANGLES fmt out + yaw)) c2)).1 *
          frame c1 i +
        (spec_pan_weights
            (chDist fmt (norm180 (SPEAKER_ANGLES fmt out + yaw)) c1)
            (chDist fmt (norm180 (SPEAKER_ANGLES fmt out + yaw)) c2)).2 *
          frame c2 i := by
  obtain ⟨c1, c2, hcc, hspec⟩ :=
    closest_channels_spec fmt (norm180 (SPEAKER_ANGLES fmt out + yaw))
  refine ⟨c1, c2, hspec, ?_⟩
  rw [rotate]
  rw [if_pos h1, if_neg h2]
  rw [amplitude_pan, hcc]
  rw [spec_pan_weights]
  simp only [chDist]
  split_ifs with h
  · simp
  · simp

/-- Witness for C1 at a concrete input. -/
theorem C1_witness :
    ∃ c1 c2,
      IsTwoClosest .seven1 (norm180 (SPEAKER_ANGLES .seven1 0 + 0)) c1 c2 ∧
      rotate .seven1 (fun _ _ => (1 : ℝ)) 0 0 0 =
        (spec_pan_weights
            (chDist .seven1 (norm180 (SPEAKER_ANGLES .seven1 0 + 0)) c1)
            (chDist .seven1 (norm180 (SPEAKER_ANGLES .seven1 0 + 0)) c2)).1 * 1 +
        (spec_pan_weights
            (chDist .seven1 (norm180 (SPEAKER_ANGLES .seven1 0 + 0)) c1)
            (chDist .seven1 (norm180 (SPEAKER_ANGLES .seven1 0 + 0)) c2)).2 * 1 :=
  C1_rotate_selects_closest_equal_power .seven1 (fun _ _ => (1 : ℝ))
    0 0 0 (by decide) (by decide)

/-! ### Claim C2 -/

/-- C2: channel 3 (LFE) of the rotated frame equals channel 3 of the
input frame exactly, for every frame, yaw, sample and both formats. -/
theorem C2_lfe_passthrough (fmt : SurroundFormat) (frame : ℕ → ℕ → ℝ)
    (yaw : ℚ) (i : ℕ) : rotate fmt frame yaw 3 i = frame 3 i := by
  cases fmt <;> simp [rotate, numChannels]

/-! ### Identity behavior when the yaw is a multiple of 360 -/

lemma qmod360_zero : qmod360 0 = 0 := by
  norm_num [qmod360]

lemma qmod360_neg_eq_zero (y : ℚ) (hy : qmod360 y = 0) : qmod360 (-y) = 0 := by
  have hy' : y = 360 * (⌊y / 360⌋ : ℚ) := by
    unfold qmod360 at hy; linarith
  rw [hy']
  unfold qmod360
  have h1 : -(360 * (⌊y / 360⌋ : ℚ)) / 360 = ((-⌊y / 360⌋ : ℤ) : ℚ) := by
    push_cast; ring
  rw [h1, Int.floor_intCast]
  push_cast
  ring

lemma norm180_add_eq (x y : ℚ) (hy : qmod360 y = 0) :
    norm180 (x + y) = norm180 x := by
  unfold norm180
  rw [qmod360_add_eq x y hy]

/-- When the target angle coincides with the angle of the first selected
channel and the second is at least 0.1° away, the pan is a pure passthrough
of the first channel. -/
lemma amplitude_pan_of_self (fmt : SurroundFormat) (frame : ℕ → ℕ → ℝ)
    (t : ℚ) (c1 c2 : ℕ) (i : ℕ)
    (hcc : closest_channels fmt t = [c1, c2])
    (h1 : angle_distance (SPEAKER_ANGLES fmt c1) t = 0)
    (h2 : 1/10 ≤ angle_distance (SPEAKER_ANGLES fmt c2) t) :
    amplitude_pan fmt frame t i = frame c1 i := by
  rw [amplitude_pan, hcc]
  dsimp only
  rw [h1]
  rw [if_neg (by linarith)]
  rw [show ((0 : ℚ) / (0 + angle_distance (SPEAKER_ANGLES fmt c2) t)) = 0 by simp]
  push_cast
  simp

lemma spatial_71 : spatial_channels .seven1 = [0, 1, 2, 4, 5, 6, 7] := by decide

lemma spatial_51 : spatial_channels .five1 = [0, 1, 2, 4, 5] := by decide

lemma cc71_30 : closest_channels .seven1 30 = [0, 2] := by
  rw [closest_channels, spatial_71]
  norm_num [List.insertionSort, List.orderedInsert, chDist, angle_distance,
    qmod360, SPEAKER_ANGLES, SPEAKER_ANGLES_71]

lemma cc71_m30 : closest_channels .seven1 (-30) = [1, 2] := by
  rw [closest_channels, spatial_71]
  norm_num [List.insertionSort, List.orderedInsert, chDist, angle_distance,
    qmod360, SPEAKER_ANGLES, SPEAKER_ANGLES_71]

lemma cc71_0 : closest_channels .seven1 0 = [2, 0] := by
  rw [closest_channels, spatial_71]
  norm_num [List.insertionSort, List.orderedInsert, chDist, angle_distance,
    qmod360, SPEAKER_ANGLES, SPEAKER_ANGLES_71]

lemma cc71_110 : closest_channels .seven1 110 = [4, 6] := by
  rw [closest_channels, spatial_71]
  norm_num [List.insertionSort, List.orderedInsert, chDist, angle_distance,
    qmod360, SPEAKER_ANGLES, SPEAKER_ANGLES_71]

lemma cc71_m110 : closest_channels .seven1 (-110) = [5, 7] := by
  rw [closest_channels, spatial_71]
  norm_num [List.insertionSort, List.orderedInsert, chDist, angle_distance,
    qmod360, SPEAKER_ANGLES, SPEAKER_ANGLES_71]

lemma cc71_150 : closest_channels .seven1 150 = [6, 4] := by
  rw [closest_channels, spatial_71]
  norm_num [List.insertionSort, List.orderedInsert, chDist, angle_distance,
    qmod360, SPEAKER_ANGLES, SPEAKER_ANGLES_71]

lemma cc71_m150 : closest_channels .seven1 (-150) = [7, 5] := by
  rw [closest_channels, spatial_71]
  norm_num [List.insertionSort, List.orderedInsert, chDist, angle_distance,
    qmod360, SPEAKER_ANGLES, SPEAKER_ANGLES_71]

lemma cc51_30 : closest_channels .five1 30 = [0, 2] := by
  rw [closest_channels, spatial_51]
  norm_num [List.insertionSort, List.orderedInsert, chDist, angle_distance,
    qmod360, SPEAKER_ANGLES, SPEAKER_ANGLES_51]

lemma cc51_m30 : closest_channels .five1 (-30) = [1, 2] := by
  rw [closest_channels, spatial_51]
  norm_num [List.insertionSort, List.orderedInsert, chDist, angle_distance,
    qmod360, SPEAKER_ANGLES, SPEAKER_ANGLES_51]

lemma cc51_0 : closest_channels .five1 0 = [2, 0] := by
  rw [closest_channels, spatial_51]
  norm_num [List.insertionSort, List.orderedInsert, chDist, angle_distance,
    qmod360, SPEAKER_ANGLES, SPEAKER_ANGLES_51]

lemma cc51_110 : closest_channels .five1 110 = [4, 0] := by
  rw [closest_channels, spatial_51]
  norm_num [List.insertionSort, List.orderedInsert, chDist, angle_distance,
    qmod360, SPEAKER_ANGLES, SPEAKER_ANGLES_51]

lemma cc51_m110 : closest_channels .five1 (-110) = [5, 1] := by
  rw [closest_channels, spatial_51]
  norm_num [List.insertionSort, List.orderedInsert, chDist, angle_distance,
    qmod360, SPEAKER_ANGLES, SPEAKER_ANGLES_51]

/-- Rotation by a yaw that is a multiple of 360° is the identity on every
valid channel (spatial channels get weight pair (1, 0) on themselves). -/
lemma rotate_yaw_trivial (fmt : SurroundFormat) (frame : ℕ → ℕ → ℝ)
    (yaw : ℚ) (hy : qmod360 yaw = 0) (ch i : ℕ)
    (hch : ch < numChannels fmt) :
    rotate fmt frame yaw ch i = frame ch i := by
  cases fmt
  case five1 =>
    have h6 : ch < 6 := hch
    rw [rotate, if_pos hch]
    interval_cases ch
    · rw [if_neg (by decide),
        show SPEAKER_ANGLES .five1 0 + yaw = 30 + yaw by norm_num [SPEAKER_ANGLES, SPEAKER_ANGLES_51],
        norm180_add_eq _ _ hy,
        show norm180 30 = 30 by norm_num [norm180, qmod360]]
      exact amplitude_pan_of_self _ _ _ 0 2 i cc51_30
        (by norm_num [angle_distance, qmod360, SPEAKER_ANGLES, SPEAKER_ANGLES_51])
        (by norm_num [angle_distance, qmod360, SPEAKER_ANGLES, SPEAKER_ANGLES_51])
    · rw [if_neg (by decide),
        show SPEAKER_ANGLES .five1 1 + yaw = -30 + yaw by norm_num [SPEAKER_ANGLES, SPEAKER_ANGLES_51],
        norm180_add_eq _ _ hy,
        show norm180 (-30) = -30 by norm_num [norm180, qmod360]]
      exact amplitude_pan_of_self _ _ _ 1 2 i cc51_m30
        (by norm_num [angle_distance, qmod360, SPEAKER_ANGLES, SPEAKER_ANGLES_51])
        (by norm_num [angle_distance, qmod360, SPEAKER_ANGLES, SPEAKER_ANGLES_51])
    · rw [if_neg (by decide),
        show SPEAKER_ANGLES .five1 2 + yaw = 0 + yaw by norm_num [SPEAKER_ANGLES, SPEAKER_ANGLES_51],
        norm180_add_eq _ _ hy,
        show norm180 0 = 0 by norm_num [norm180, qmod360]]
      exact amplitude_pan_of_self _ _ _ 2 0 i cc51_0
        (by norm_num [angle_distance, qmod360, SPEAKER_ANGLES, SPEAKER_ANGLES_51])
        (by norm_num [angle_distance, qmod360, SPEAKER_ANGLES, SPEAKER_ANGLES_51])
    · rw [if_pos rfl]
    · rw [if_neg (by decide),
        show SPEAKER_ANGLES .five1 4 + yaw = 110 + yaw by norm_num [SPEAKER_ANGLES, SPEAKER_ANGLES_51],
        norm180_add_eq _ _ hy,
        show norm180 110 = 110 by norm_num [norm180, qmod360]]
      exact amplitude_pan_of_self _ _ _ 4 0 i cc51_110
        (by norm_num [angle_distance, qmod360, SPEAKER_ANGLES, SPEAKER_ANGLES_51])
        (by norm_num [angle_distance, qmod360, SPEAKER_ANGLES, SPEAKER_ANGLES_51])
    · rw [if_neg (by decide),
        show SPEAKER_ANGLES .five1 5 + yaw = -110 + yaw by norm_num [SPEAKER_ANGLES, SPEAKER_ANGLES_51],
        norm180_add_eq _ _ hy,
        show norm180 (-110) = -110 by norm_num [norm180, qmod360]]
      exact amplitude_pan_of_self _ _ _ 5 1 i cc51_m110
        (by norm_num [angle_distance, qmod360, SPEAKER_ANGLES, SPEAKER_ANGLES_51])
        (by norm_num [angle_distance, qmod360, SPEAKER_ANGLES, SPEAKER_ANGLES_51])
  case seven1 =>
    have h8 : ch < 8 := hch
    rw [rotate, if_pos hch]
    interval_cases ch
    · rw [if_neg (by decide),
        show SPEAKER_ANGLES .seven1 0 + yaw = 30 + yaw by norm_num [SPEAKER_ANGLES, SPEAKER_ANGLES_71],
        norm180_add_eq _ _ hy,
        show norm180 30 = 30 by norm_num [norm180, qmod360]]
      exact amplitude_pan_of_self _ _ _ 0 2 i cc71_30
        (by norm_num [angle_distance, qmod360, SPEAKER_ANGLES, SPEAKER_ANGLES_71])
        (by norm_num [angle_distance, qmod360, SPEAKER_ANGLES, SPEAKER_ANGLES_71])
    · rw [if_neg (by decide),
        show SPEAKER_ANGLES .seven1 1 + yaw = -30 + yaw by norm_num [SPEAKER_ANGLES, SPEAKER_ANGLES_71],
        norm180_add_eq _ _ hy,
        show norm180 (-30) = -30 by norm_num [norm180, qmod360]]
      exact amplitude_pan_of_self _ _ _ 1 2 i cc71_m30
        (by norm_num [angle_distance, qmod360, SPEAKER_ANGLES, SPEAKER_ANGLES_71])
        (by norm_num [angle_distance, qmod360, SPEAKER_ANGLES, SPEAKER_ANGLES_71])
    · rw [if_neg (by decide),
        show SPEAKER_ANGLES .seven1 2 + yaw = 0 + yaw by norm_num [SPEAKER_ANGLES, SPEAKER_ANGLES_71],
        norm180_add_eq _ _ hy,
        show norm180 0 = 0 by norm_num [norm180, qmod360]]
      exact amplitude_pan_of_self _ _ _ 2 0 i cc71_0
        (by norm_num [angle_distance, qmod360, SPEAKER_ANGLES, SPEAKER_ANGLES_71])
        (by norm_num [angle_distance, qmod360, SPEAKER_ANGLES, SPEAKER_ANGLES_71])
    · rw [if_pos rfl]
    · rw [if_neg (by decide),
        show SPEAKER_ANGLES .seven1 4 + yaw = 110 + yaw by norm_num [SPEAKER_ANGLES, SPEAKER_ANGLES_71],
        norm180_add_eq _ _ hy,
        show norm180 110 = 110 by norm_num [norm180, qmod360]]
      exact amplitude_pan_of_self _ _ _ 4 6 i cc71_110
        (by norm_num [angle_distance, qmod360, SPEAKER_ANGLES, SPEAKER_ANGLES_71])
        (by norm_num [angle_distance, qmod360, SPEAKER_ANGLES, SPEAKER_ANGLES_71])
    · rw [if_neg (by decide),
        show SPEAKER_ANGLES .seven1 5 + yaw = -110 + yaw by norm_num [SPEAKER_ANGLES, SPEAKER_ANGLES_71],
        norm180_add_eq _ _ hy,
        show norm180 (-110) = -110 by norm_num [norm180, qmod360]]
      exact amplitude_pan_of_self _ _ _ 5 7 i cc71_m110
        (by norm_num [angle_distance, qmod360, SPEAKER_ANGLES, SPEAKER_ANGLES_71])
        (by norm_num [angle_distance, qmod360, SPEAKER_ANGLES, SPEAKER_ANGLES_71])
    · rw [if_neg (by decide),
        show SPEAKER_ANGLES .seven1 6 + yaw = 150 + yaw by norm_num [SPEAKER_ANGLES, SPEAKER_ANGLES_71],
        norm180_add_eq _ _ hy,
        show norm180 150 = 150 by norm_num [norm180, qmod360]]
      exact amplitude_pan_of_self _ _ _ 6 4 i cc71_150
        (by norm_num [angle_distance, qmod360, SPEAKER_ANGLES, SPEAKER_ANGLES_71])
        (by norm_num [angle_distance, qmod360, SPEAKER_ANGLES, SPEAKER_ANGLES_71])
    · rw [if_neg (by decide),
        show SPEAKER_ANGLES .seven1 7 + yaw = -150 + yaw by norm_num [SPEAKER_ANGLES, SPEAKER_ANGLES_71],
        norm180_add_eq _ _ hy,
        show norm180 (-150) = -150 by norm_num [norm180, qmod360]]
      exact amplitude_pan_of_self _ _ _ 7 5 i cc71_m150
        (by norm_num [angle_distance, qmod360, SPEAKER_ANGLES, SPEAKER_ANGLES_71])
        (by norm_num [angle_distance, qmod360, SPEAKER_ANGLES, SPEAKER_ANGLES_71])

/-! ### Claim C3 -/

/-- C3: rotating by yaw = 0 reproduces the input frame on every channel
(LFE unchanged, and every spatial channel — each being its own closest match
in both shipped tables — reproduced exactly, hence within any floating-point
tolerance). -/
theorem C3_yaw_zero_identity (fmt : SurroundFormat) (frame : ℕ → ℕ → ℝ)
    (ch i : ℕ) (hch : ch < numChannels fmt) :
    rotate fmt frame 0 ch i = frame ch i :=
  rotate_yaw_trivial fmt frame 0 qmod360_zero ch i hch

/-- Witness for C3 at a concrete input. -/
theorem C3_witness :
    rotate .seven1 (fun c j => (c : ℝ) + j) 0 4 2 = (4 : ℝ) + 2 :=
  C3_yaw_zero_identity .seven1 (fun c j => (c : ℝ) + j) 4 2 (by decide)

/-! ### Claim C7 -/

/-- Unfolding of `rotate` on a valid spatial output channel. -/
lemma rotate_eval (fmt : SurroundFormat) (frame : ℕ → ℕ → ℝ) (yaw : ℚ)
    (out i : ℕ) (h1 : out < numChannels fmt) (h3 : out ≠ 3) :
    rotate fmt frame yaw out i =
      amplitude_pan fmt frame (norm180 (SPEAKER_ANGLES fmt out + yaw)) i := by
  rw [rotate, if_pos h1, if_neg h3]

/-- Unfolding of `_amplitude_pan` once the two selected channels are known. -/
lemma amplitude_pan_eval (fmt : SurroundFormat) (frame : ℕ → ℕ → ℝ)
    (t : ℚ) (c1 c2 : ℕ) (i : ℕ)
    (hcc : closest_channels fmt t = [c1, c2]) :
    amplitude_pan fmt frame t i =
      if angle_distance (SPEAKER_ANGLES fmt c1) t +
          angle_distance (SPEAKER_ANGLES fmt c2) t < 1/10 then
        1 * frame c1 i + 0 * frame c2 i
      else
        Real.cos ((angle_distance (SPEAKER_ANGLES fmt c1) t /
            (angle_distance (SPEAKER_ANGLES fmt c1) t +
             angle_distance (SPEAKER_ANGLES fmt c2) t) : ℚ) * Real.pi / 2) *
          frame c1 i +
        Real.sin ((angle_distance (SPEAKER_ANGLES fmt c1) t /
            (angle_distance (SPEAKER_ANGLES fmt c1) t +
             angle_distance (SPEAKER_ANGLES fmt c2) t) : ℚ) * Real.pi / 2) *
          frame c2 i := by
  rw [amplitude_pan, hcc]

lemma cc71_60 : closest_channels .seven1 60 = [0, 4] := by
  rw [closest_channels, spatial_71]
  norm_num [List.insertionSort, List.orderedInsert, chDist, angle_distance,
    qmod360, SPEAKER_ANGLES, SPEAKER_ANGLES_71]

lemma cc71_140 : closest_channels .seven1 140 = [6, 4] := by
  rw [closest_channels, spatial_71]
  norm_num [List.insertionSort, List.orderedInsert, chDist, angle_distance,
    qmod360, SPEAKER_ANGLES, SPEAKER_ANGLES_71]

lemma cc71_80 : closest_channels .seven1 80 = [4, 0] := by
  rw [closest_channels, spatial_71]
  norm_num [List.insertionSort, List.orderedInsert, chDist, angle_distance,
    qmod360, SPEAKER_ANGLES, SPEAKER_ANGLES_71]

/-- C7 (counterexample): for the unit-amplitude 7.1 frame with channel 0
(Front Left) at 1.0 and all other channels 0, rotating by 30° and then by
−30° leaves channel 4 (Left Surround) at sin(3π/16)·cos(3π/16) ≈ 0.462,
which differs from its original value 0 by far more than 1e-4 per sample. -/
theorem C7_counterexample :
    1/10000 <
      |rotate .seven1
          (rotate .seven1 (fun c _ => if c = 0 then (1 : ℝ) else 0) 30)
          (-30) 4 0 -
        (fun c _ => if c = 0 then (1 : ℝ) else 0) 4 0| := by
  have hg0 : rotate .seven1 (fun c _ => if c = 0 then (1 : ℝ) else 0) 30 0 0 =
      Real.cos (3 * Real.pi / 16) := by
    rw [rotate_eval _ _ _ _ _ (by decide) (by decide),
      show norm180 (SPEAKER_ANGLES .seven1 0 + 30) = 60 by
        norm_num [SPEAKER_ANGLES, SPEAKER_ANGLES_71, norm180, qmod360],
      amplitude_pan_eval _ _ _ 0 4 0 cc71_60,
      if_neg (by
        norm_num [angle_distance, qmod360, SPEAKER_ANGLES, SPEAKER_ANGLES_71]),
      show angle_distance (SPEAKER_ANGLES .seven1 0) 60 = 30 by
        norm_num [angle_distance, qmod360, SPEAKER_ANGLES, SPEAKER_ANGLES_71],
      show angle_distance (SPEAKER_ANGLES .seven1 4) 60 = 50 by
        norm_num [angle_distance, qmod360, SPEAKER_ANGLES, SPEAKER_ANGLES_71],
      show ((30 / (30 + 50) : ℚ) : ℝ) * Real.pi / 2 = 3 * Real.pi / 16 by
        push_cast; ring]
    norm_num
  have hg4 : rotate .seven1 (fun c _ => if c = 0 then (1 : ℝ) else 0) 30 4 0 =
      0 := by
    rw [rotate_eval _ _ _ _ _ (by decide) (by decide),
      show norm180 (SPEAKER_ANGLES .seven1 4 + 30) = 140 by
        norm_num [SPEAKER_ANGLES, SPEAKER_ANGLES_71, norm180, qmod360],
      amplitude_pan_eval _ _ _ 6 4 0 cc71_140,
      if_neg (by
        norm_num [angle_distance, qmod360, SPEAKER_ANGLES, SPEAKER_ANGLES_71])]
    norm_num
  have houter : rotate .seven1
      (rotate .seven1 (fun c _ => if c = 0 then (1 : ℝ) else 0) 30) (-30) 4 0 =
      Real.sin (3 * Real.pi / 16) * Real.cos (3 * Real.pi / 16) := by
    rw [rotate_eval _ _ _ _ _ (by decide) (by decide),
      show norm180 (SPEAKER_ANGLES .seven1 4 + -30) = 80 by
        norm_num [SPEAKER_ANGLES, SPEAKER_ANGLES_71, norm180, qmod360],
      amplitude_pan_eval _ _ _ 4 0 0 cc71_80,
      if_neg (by
        norm_num [angle_distance, qmod360, SPEAKER_ANGLES, SPEAKER_ANGLES_71]),
      show angle_distance (SPEAKER_ANGLES .seven1 4) 80 = 30 by
        norm_num [angle_distance, qmod360, SPEAKER_ANGLES, SPEAKER_ANGLES_71],
      show angle_distance (SPEAKER_ANGLES .seven1 0) 80 = 50 by
        norm_num [angle_distance, qmod360, SPEAKER_ANGLES, SPEAKER_ANGLES_71],
      show ((30 / (30 + 50) : ℚ) : ℝ) * Real.pi / 2 = 3 * Real.pi / 16 by
        push_cast; ring,
      hg4, hg0]
    ring
  rw [houter]
  have hval : Real.sin (3 * Real.pi / 16) * Real.cos (3 * Real.pi / 16) =
      Real.cos (Real.pi / 8) / 2 := by
    have h2m := Real.sin_two_mul (3 * Real.pi / 16)
    have harg : 2 * (3 * Real.pi / 16) = 3 * Real.pi / 8 := by ring
    rw [harg] at h2m
    have hps : Real.pi / 2 - Real.pi / 8 = 3 * Real.pi / 8 := by ring
    have hsc := Real.sin_pi_div_two_sub (Real.pi / 8)
    rw [hps] at hsc
    have hhalf : Real.sin (3 * Real.pi / 16) * Real.cos (3 * Real.pi / 16) =
        Real.sin (3 * Real.pi / 8) / 2 := by rw [h2m]; ring
    rw [hhalf, hsc]
  have hcos : (1 : ℝ) / 2 < Real.cos (Real.pi / 8) := by
    have := Real.cos_lt_cos_of_nonneg_of_le_pi
      (x := Real.pi / 8) (y := Real.pi / 3)
      (by positivity) (by linarith [Real.pi_pos]) (by linarith [Real.pi_pos])
    rwa [Real.cos_pi_div_three] at this
  have hpos : 0 < Real.cos (Real.pi / 8) / 2 := by linarith
  rw [hval]
  rw [show Real.cos (Real.pi / 8) / 2 - (fun c _ => if c = 0 then (1 : ℝ) else 0) 4 0 =
      Real.cos (Real.pi / 8) / 2 by norm_num]
  rw [abs_of_pos hpos]
  linarith

/-- C7 (amended): rotating by θ and then by −θ restores the original
frame exactly on every channel when θ is a multiple of 360° (in particular
θ = 0); for general θ the double rotation does not restore the frame (see
the counterexample). -/
theorem C7_amended_roundtrip (fmt : SurroundFormat) (frame : ℕ → ℕ → ℝ)
    (θ : ℚ) (hθ : qmod360 θ = 0) (ch i : ℕ) (hch : ch < numChannels fmt) :
    rotate fmt (rotate fmt frame θ) (-θ) ch i = frame ch i := by
  rw [rotate_yaw_trivial fmt _ (-θ) (qmod360_neg_eq_zero θ hθ) ch i hch]
  exact rotate_yaw_trivial fmt frame θ hθ ch i hch

/-- Witness for the amended C7 at a concrete input. -/
theorem C7_amended_witness :
    rotate .seven1 (rotate .seven1 (fun c j => (c : ℝ) * j) 360) (-360) 5 3 =
      (5 : ℝ) * 3 :=
  C7_amended_roundtrip .seven1 (fun c j => (c : ℝ) * j) 360
    (by norm_num [qmod360]) 5 3 (by decide)

/-! ### Claim C10 -/

lemma angle_distance_symm (a b : ℚ) : angle_distance a b = angle_distance b a := by
  unfold angle_distance
  rw [abs_sub_comm]

/-- Any two distinct spatial speakers of the shipped tables are at least 30°
apart. -/
lemma speaker_min_spacing (fmt : SurroundFormat) :
    ∀ a ∈ spatial_channels fmt, ∀ b ∈ spatial_channels fmt, a ≠ b →
      30 ≤ angle_distance (SPEAKER_ANGLES fmt a) (SPEAKER_ANGLES fmt b) := by
  intro a ha b hb hne
  cases fmt
  case five1 =>
    rw [spatial_51] at ha hb
    fin_cases ha <;> fin_cases hb <;>
      first
        | exact absurd rfl hne
        | norm_num [angle_distance, qmod360, SPEAKER_ANGLES, SPEAKER_ANGLES_51]
  case seven1 =>
    rw [spatial_71] at ha hb
    fin_cases ha <;> fin_cases hb <;>
      first
        | exact absurd rfl hne
        | norm_num [angle_distance, qmod360, SPEAKER_ANGLES, SPEAKER_ANGLES_71]

/-- C10: in both shipped tables distinct spatial speakers are ≥ 30°
apart, and by the triangle inequality of the shortest-angular-distance
metric the two selected channels always satisfy `d1 + d2 ≥ 30`, so the
`total_dist < 0.1` fallback branch of `_amplitude_pan` is unreachable and
the divisor of `t = d1/(d1+d2)` is never near zero. -/
theorem C10_degenerate_branch_unreachable :
    (∀ fmt : SurroundFormat, ∀ a ∈ spatial_channels fmt,
      ∀ b ∈ spatial_channels fmt, a ≠ b →
        30 ≤ angle_distance (SPEAKER_ANGLES fmt a) (SPEAKER_ANGLES fmt b)) ∧
    (∀ (fmt : SurroundFormat) (target : ℚ), ∃ c1 c2,
      closest_channels fmt target = [c1, c2] ∧
      30 ≤ chDist fmt target c1 + chDist fmt target c2 ∧
      ¬(chDist fmt target c1 + chDist fmt target c2 < 1/10)) := by
  refine ⟨speaker_min_spacing, ?_⟩
  intro fmt target
  obtain ⟨c1, c2, hcc, hspec⟩ := closest_channels_spec fmt target
  obtain ⟨hm1, hm2, hne, -, -⟩ := hspec
  have h30 := speaker_min_spacing fmt c1 hm1 c2 hm2 hne
  have htri := angle_distance_triangle
    (SPEAKER_ANGLES fmt c1) target (SPEAKER_ANGLES fmt c2)
  have hsym : angle_distance target (SPEAKER_ANGLES fmt c2) =
      angle_distance (SPEAKER_ANGLES fmt c2) target := angle_distance_symm _ _
  have hsum : 30 ≤ chDist fmt target c1 + chDist fmt target c2 := by
    unfold chDist
    rw [← hsym]
    linarith
  exact ⟨c1, c2, hcc, hsum, by linarith⟩

/-- Witness for C10 at concrete channels. -/
theorem C10_witness :
    30 ≤ angle_distance (SPEAKER_ANGLES .seven1 0) (SPEAKER_ANGLES .seven1 1) :=
  C10_degenerate_branch_unreachable.1 .seven1 0 (by decide) 1 (by decide)
    (by decide)

/-! ### Upmixer -/

/-- Embeds `self.surround_delay_samples = int(0.005 * self.sample_rate)` (5 ms). -/
def surround_delay_samples (sample_rate : ℕ) : ℕ :=
  (⌊(5 / 1000 : ℚ) * sample_rate⌋).toNat

/-- Embeds `self.rear_delay_samples = int(0.010 * self.sample_rate)` (10 ms). -/
def rear_delay_samples (sample_rate : ℕ) : ℕ :=
  (⌊(10 / 1000 : ℚ) * sample_rate⌋).toNat

/-- Function `StereoTo71Upmixer.upmix(stereo_frame)`.

The frame is given by its two sample sequences `left`, `right` and its
length `num_samples`; the output is (channel, sample index) ↦ amplitude,
zero outside the allocated `np.zeros((num_samples, num_channels))` block.
`np.concatenate([np.zeros(d), sig])[:num_samples]` is sample `i ↦ 0` for
`i < d` and `sig (i - d)` otherwise.  The LFE low-pass
(`scipy.signal.sosfilt` with `scipy.signal.butter` coefficients) is an
external-library computation, passed in abstractly as `lfe_filter`. -/
noncomputable def upmix (sample_rate : ℕ) (fmt : SurroundFormat)
    (lfe_filter : (ℕ → ℝ) → (ℕ → ℝ))
    (left right : ℕ → ℝ) (num_samples : ℕ) : ℕ → ℕ → ℝ :=
  fun ch i =>
    if ch < numChannels fmt ∧ i < num_samples then
      if ch = 0 then left i
      else if ch = 1 then right i
      else if ch = 2 then (left i + right i) * (1/2)
      else if ch = 3 then lfe_filter (fun j => (left j + right j) * (1/2)) i
      else if ch = 4 then
        (if i < surround_delay_samples sample_rate then 0
         else left (i - surround_delay_samples sample_rate) -
              right (i - surround_delay_samples sample_rate)) * (7/10)
      else if ch = 5 then
        (if i < surround_delay_samples sample_rate then 0
         else right (i - surround_delay_samples sample_rate) -
              left (i - surround_delay_samples sample_rate)) * (7/10)
      else if ch = 6 then
        (if i < rear_delay_samples sample_rate then 0
         else -(left (i - rear_delay_samples sample_rate) -
                right (i - rear_delay_samples sample_rate))) * (1/2)
      else if ch = 7 then
        (if i < rear_delay_samples sample_rate then 0
         else -(right (i - rear_delay_samples sample_rate) -
                left (i - rear_delay_samples sample_rate))) * (1/2)
      else 0
    else 0

/-! ### Claim C4 -/

/-- C4: the upmixer passes L unchanged to channel 0, R unchanged to
channel 1, and channel 2 (Center) equals the elementwise average `(L+R)/2`
for every sample, for both formats and every LFE filter. -/
theorem C4_upmix_front_channels (sample_rate : ℕ) (fmt : SurroundFormat)
    (lfe_filter : (ℕ → ℝ) → (ℕ → ℝ)) (left right : ℕ → ℝ)
    (num_samples i : ℕ) (hi : i < num_samples) :
    upmix sample_rate fmt lfe_filter left right num_samples 0 i = left i ∧
    upmix sample_rate fmt lfe_filter left right num_samples 1 i = right i ∧
    upmix sample_rate fmt lfe_filter left right num_samples 2 i =
      (left i + right i) / 2 := by
  refine ⟨?_, ?_, ?_⟩ <;>
    · cases fmt <;>
      · simp [upmix, numChannels, hi]
        try rw [mul_comm, inv_mul_eq_div]

/-- Witness for C4 at a concrete input. -/
theorem C4_witness :
    upmix 48000 .seven1 (fun g => g) (fun _ => (1 : ℝ)) (fun _ => 2) 1 0 0 =
      1 ∧
    upmix 48000 .seven1 (fun g => g) (fun _ => (1 : ℝ)) (fun _ => 2) 1 1 0 =
      2 ∧
    upmix 48000 .seven1 (fun g => g) (fun _ => (1 : ℝ)) (fun _ => 2) 1 2 0 =
      ((1 : ℝ) + 2) / 2 :=
  C4_upmix_front_channels 48000 .seven1 (fun g => g) (fun _ => (1 : ℝ))
    (fun _ => 2) 1 0 (by decide)

/-! ### Claim C5 -/

/-- C5: the side surrounds are the stereo difference signals scaled by
0.7 and delayed by `int(0.005·sample_rate)` samples (leading zeros,
truncated back to the block length); for 7.1 only, the rears are the negated
difference signals scaled by 0.5 and delayed by `int(0.010·sample_rate)`
samples; a 5.1 frame has only 6 channels and no rear content. -/
theorem C5_upmix_surround_channels (sample_rate : ℕ)
    (lfe_filter : (ℕ → ℝ) → (ℕ → ℝ)) (left right : ℕ → ℝ)
    (num_samples i : ℕ) (hi : i < num_samples) :
    (∀ fmt : SurroundFormat,
      upmix sample_rate fmt lfe_filter left right num_samples 4 i =
        (7/10) * (if i < surround_delay_samples sample_rate then 0
          else left (i - surround_delay_samples sample_rate) -
               right (i - surround_delay_samples sample_rate)) ∧
      upmix sample_rate fmt lfe_filter left right num_samples 5 i =
        (7/10) * (if i < surround_delay_samples sample_rate then 0
          else right (i - surround_delay_samples sample_rate) -
               left (i - surround_delay_samples sample_rate))) ∧
    (upmix sample_rate .seven1 lfe_filter left right num_samples 6 i =
      (1/2) * (if i < rear_delay_samples sample_rate then 0
        else -(left (i - rear_delay_samples sample_rate) -
               right (i - rear_delay_samples sample_rate))) ∧
     upmix sample_rate .seven1 lfe_filter left right num_samples 7 i =
      (1/2) * (if i < rear_delay_samples sample_rate then 0
        else -(right (i - rear_delay_samples sample_rate) -
               left (i - rear_delay_samples sample_rate)))) ∧
    (numChannels .five1 = 6 ∧
     ∀ ch, 6 ≤ ch →
       upmix sample_rate .five1 lfe_filter left right num_samples ch i = 0) := by
  refine ⟨?_, ⟨?_, ?_⟩, rfl, ?_⟩
  · intro fmt
    constructor <;>
      · cases fmt <;>
        · simp [upmix, numChannels, hi]
          ring_nf
  · simp [upmix, numChannels, hi]
    ring_nf
  · simp [upmix, numChannels, hi]
    ring_nf
  · intro ch hch
    rw [upmix]
    exact if_neg (fun h => (Nat.not_lt.mpr hch) h.1)

/-- Witness for C5 at a concrete input. -/
theorem C5_witness :
    (∀ fmt : SurroundFormat,
      upmix 48000 fmt (fun g => g) (fun _ => (1 : ℝ)) (fun _ => 0) 1 4 0 =
        (7/10) * (if 0 < surround_delay_samples 48000 then 0
          else (fun _ => (1 : ℝ)) (0 - surround_delay_samples 48000) -
               (fun _ => (0 : ℝ)) (0 - surround_delay_samples 48000)) ∧
      upmix 48000 fmt (fun g => g) (fun _ => (1 : ℝ)) (fun _ => 0) 1 5 0 =
        (7/10) * (if 0 < surround_delay_samples 48000 then 0
          else (fun _ => (0 : ℝ)) (0 - surround_delay_samples 48000) -
               (fun _ => (1 : ℝ)) (0 - surround_delay_samples 48000))) ∧
    (upmix 48000 .seven1 (fun g => g) (fun _ => (1 : ℝ)) (fun _ => 0) 1 6 0 =
      (1/2) * (if 0 < rear_delay_samples 48000 then 0
        else -((fun _ => (1 : ℝ)) (0 - rear_delay_samples 48000) -
               (fun _ => (0 : ℝ)) (0 - rear_delay_samples 48000))) ∧
     upmix 48000 .seven1 (fun g => g) (fun _ => (1 : ℝ)) (fun _ => 0) 1 7 0 =
      (1/2) * (if 0 < rear_delay_samples 48000 then 0
        else -((fun _ => (0 : ℝ)) (0 - rear_delay_samples 48000) -
               (fun _ => (1 : ℝ)) (0 - rear_delay_samples 48000)))) ∧
    (numChannels .five1 = 6 ∧
     ∀ ch, 6 ≤ ch →
       upmix 48000 .five1 (fun g => g) (fun _ => (1 : ℝ)) (fun _ => 0) 1 ch 0 =
         0) :=
  C5_upmix_surround_channels 48000 (fun g => g) (fun _ => (1 : ℝ))
    (fun _ => 0) 1 0 (by decide)

/-! ### Stereo rotator (debug mode) -/

/-- The `volume` computed by `StereoRotator.rotate`: full volume in the front
hemisphere, linear reduction to 0.2 at 180° behind
(`rear_factor = (abs_yaw - 90)/90; volume = 1 - rear_factor*0.8`). -/
def stereo_volume (yaw_degrees : ℚ) : ℚ :=
  let yaw := norm180 yaw_degrees
  if |yaw| > 90 then 1 - ((|yaw| - 90) / 90) * (8/10) else 1

/-- The `pan_yaw` computed by `StereoRotator.rotate`: rear sounds are mirrored
to the front hemisphere (`mirrored_yaw = 180 - abs_yaw`, original sign
preserved). -/
def stereo_pan_yaw (yaw_degrees : ℚ) : ℚ :=
  let yaw := norm180 yaw_degrees
  if |yaw| > 90 then
    if yaw < 0 then -(180 - |yaw|) else 180 - |yaw|
  else yaw

/-- Embeds `pan = max(-1.0, min(1.0, -pan_yaw / 90.0))`. -/
def stereo_pan (yaw_degrees : ℚ) : ℚ :=
  max (-1) (min 1 (-(stereo_pan_yaw yaw_degrees) / 90))

/-- Embeds `left_gain = np.cos(pan_radians - np.pi/4) * volume` with
`pan_radians = pan * np.pi / 4`. -/
noncomputable def left_gain (yaw_degrees : ℚ) : ℝ :=
  Real.cos ((stereo_pan yaw_degrees : ℝ) * Real.pi / 4 - Real.pi / 4) *
    (stereo_volume yaw_degrees : ℝ)

/-- Embeds `right_gain = np.cos(pan_radians + np.pi/4) * volume`. -/
noncomputable def right_gain (yaw_degrees : ℚ) : ℝ :=
  Real.cos ((stereo_pan yaw_degrees : ℝ) * Real.pi / 4 + Real.pi / 4) *
    (stereo_volume yaw_degrees : ℝ)

/-- Function `StereoRotator.rotate`: a mono mix `(left + right) * 0.5` panned with
the two gains. -/
noncomputable def stereo_rotate (left right : ℕ → ℝ) (yaw_degrees : ℚ) :
    ℕ → ℕ → ℝ :=
  fun ch i =>
    if ch = 0 then ((left i + right i) * (1/2)) * left_gain yaw_degrees
    else if ch = 1 then ((left i + right i) * (1/2)) * right_gain yaw_degrees
    else 0

lemma norm180_bounds (x : ℚ) : -180 < norm180 x ∧ norm180 x ≤ 180 := by
  unfold norm180
  have h1 := qmod360_nonneg x
  have h2 := qmod360_lt x
  dsimp only
  split <;> constructor <;> linarith

lemma abs_norm180_le (x : ℚ) : |norm180 x| ≤ 180 := by
  obtain ⟨h1, h2⟩ := norm180_bounds x
  rw [abs_le]
  constructor <;> linarith

/-- The volume stays in [0.2, 1] for every yaw. -/
lemma stereo_volume_bounds (y : ℚ) :
    1/5 ≤ stereo_volume y ∧ stereo_volume y ≤ 1 := by
  unfold stereo_volume
  have h180 := abs_norm180_le y
  have h0 : 0 ≤ |norm180 y| := abs_nonneg _
  dsimp only
  split <;> constructor <;> linarith

/-! ### Claim C6 -/

/-- C6: the stereo rotator uses volume 1 for `|yaw| ≤ 90` and
`1 − 0.8·(|yaw|−90)/90` for `|yaw| > 90` (normalized yaw); the volume is
strictly decreasing in `|yaw|` past 90°, never drops below its floor 0.2,
reaches the floor at yaw = ±180 where the mirrored `pan_yaw` is 0 (fully
centered); at yaw = 0 the two gains are equal. -/
theorem C6_stereo_volume_pan_law :
    (∀ y : ℚ, |norm180 y| ≤ 90 → stereo_volume y = 1) ∧
    (∀ y : ℚ, 90 < |norm180 y| →
      stereo_volume y = 1 - ((|norm180 y| - 90) / 90) * (8/10)) ∧
    (∀ y₁ y₂ : ℚ, 90 < |norm180 y₁| → |norm180 y₁| < |norm180 y₂| →
      stereo_volume y₂ < stereo_volume y₁) ∧
    (∀ y : ℚ, 1/5 ≤ stereo_volume y) ∧
    stereo_volume 180 = 1/5 ∧ stereo_volume (-180) = 1/5 ∧
    stereo_pan_yaw 180 = 0 ∧ stereo_pan_yaw (-180) = 0 ∧
    left_gain 0 = right_gain 0 := by
  have hfront : ∀ y : ℚ, |norm180 y| ≤ 90 → stereo_volume y = 1 := by
    intro y h
    unfold stereo_volume
    dsimp only
    rw [if_neg (not_lt.mpr h)]
  have hrear : ∀ y : ℚ, 90 < |norm180 y| →
      stereo_volume y = 1 - ((|norm180 y| - 90) / 90) * (8/10) := by
    intro y h
    unfold stereo_volume
    dsimp only
    rw [if_pos h]
  have hn180 : norm180 (180 : ℚ) = 180 := by norm_num [norm180, qmod360]
  have hnm180 : norm180 (-180 : ℚ) = 180 := by norm_num [norm180, qmod360]
  have habs180 : |(180 : ℚ)| = 180 := abs_of_pos (by norm_num)
  refine ⟨hfront, hrear, ?_, ?_, ?_, ?_, ?_, ?_, ?_⟩
  · intro y₁ y₂ h1 h2
    rw [hrear y₁ h1, hrear y₂ (lt_trans h1 h2)]
    linarith
  · intro y
    exact (stereo_volume_bounds y).1
  · rw [hrear 180 (by rw [hn180, habs180]; norm_num), hn180, habs180]
    norm_num
  · rw [hrear (-180) (by rw [hnm180, habs180]; norm_num), hnm180, habs180]
    norm_num
  · unfold stereo_pan_yaw
    dsimp only
    rw [hn180, habs180, if_pos (by norm_num), if_neg (by norm_num)]
    norm_num
  · unfold stereo_pan_yaw
    dsimp only
    rw [hnm180, habs180, if_pos (by norm_num), if_neg (by norm_num)]
    norm_num
  · have hp : stereo_pan 0 = 0 := by
      norm_num [stereo_pan, stereo_pan_yaw, norm180, qmod360]
    unfold left_gain right_gain
    rw [hp,
      show ((0 : ℚ) : ℝ) * Real.pi / 4 - Real.pi / 4 = -(Real.pi / 4) by
        push_cast; ring,
      show ((0 : ℚ) : ℝ) * Real.pi / 4 + Real.pi / 4 = Real.pi / 4 by
        push_cast; ring,
      Real.cos_neg]

/-- Witness for C6 at a concrete rear yaw. -/
theorem C6_witness :
    stereo_volume 135 = 1 - ((|norm180 135| - 90) / 90) * (8/10) :=
  C6_stereo_volume_pan_law.2.1 135
    (by norm_num [norm180, qmod360, abs_of_pos])

/-! ### Claim C8 -/

lemma stereo_volume_90_eq : stereo_volume 90 = 1 := by
  have hn : norm180 (90 : ℚ) = 90 := by norm_num [norm180, qmod360]
  unfold stereo_volume
  dsimp only
  rw [hn, show |(90 : ℚ)| = 90 from abs_of_pos (by norm_num),
    if_neg (by norm_num)]

lemma stereo_pan_90_eq : stereo_pan 90 = -1 := by
  have hn : norm180 (90 : ℚ) = 90 := by norm_num [norm180, qmod360]
  unfold stereo_pan stereo_pan_yaw
  dsimp only
  rw [hn, show |(90 : ℚ)| = 90 from abs_of_pos (by norm_num),
    if_neg (by norm_num)]
  norm_num

lemma left_gain_90_eq : left_gain 90 = 0 := by
  unfold left_gain
  rw [stereo_pan_90_eq, stereo_volume_90_eq,
    show ((-1 : ℚ) : ℝ) * Real.pi / 4 - Real.pi / 4 = -(Real.pi / 2) by
      push_cast; ring,
    Real.cos_neg, Real.cos_pi_div_two]
  norm_num

lemma right_gain_90_eq : right_gain 90 = 1 := by
  unfold right_gain
  rw [stereo_pan_90_eq, stereo_volume_90_eq,
    show ((-1 : ℚ) : ℝ) * Real.pi / 4 + Real.pi / 4 = 0 by
      push_cast; ring,
    Real.cos_zero]
  norm_num

/-- C8 (counterexample): at yaw = 90 the code's `right_gain` is
`cos(0)·1 = 1`, not `cos(−π/4)·1 ≈ 0.707` as the claim states; the gap
(≈ 0.293) exceeds any reasonable approximation tolerance. -/
theorem C8_counterexample :
    1/10 < |right_gain 90 - Real.cos (-(Real.pi / 4)) * 1| := by
  rw [right_gain_90_eq, Real.cos_neg, Real.cos_pi_div_four, mul_one]
  have hs : Real.sqrt 2 < 18/10 := by
    nlinarith [Real.sq_sqrt (show (0 : ℝ) ≤ 2 by norm_num),
      Real.sqrt_nonneg 2]
  have hpos : 0 < 1 - Real.sqrt 2 / 2 := by linarith
  rw [abs_of_pos hpos]
  linarith

/-- C8 (amended): for a mono input (both channels identical) and
yaw = 90, the stereo rotator yields volume 1, `left_gain = 0`, and
`right_gain = cos(0)·1 = 1`, which is the maximum of `right_gain` over all
yaws; the left output is silent and the right output carries the mono mix
unchanged. -/
theorem C8_amended_mono_yaw90 (left right : ℕ → ℝ) (hmono : right = left)
    (i : ℕ) :
    stereo_volume 90 = 1 ∧ left_gain 90 = 0 ∧
    right_gain 90 = Real.cos 0 * 1 ∧
    (∀ y : ℚ, right_gain y ≤ right_gain 90) ∧
    stereo_rotate left right 90 0 i = 0 ∧
    stereo_rotate left right 90 1 i = left i := by
  subst hmono
  have hmax : ∀ y : ℚ, right_gain y ≤ 1 := by
    intro y
    unfold right_gain
    have hc := Real.abs_cos_le_one
      ((stereo_pan y : ℝ) * Real.pi / 4 + Real.pi / 4)
    have hv := stereo_volume_bounds y
    have hv1 : |(stereo_volume y : ℝ)| ≤ 1 := by
      rw [abs_le]
      constructor
      · have h5 : ((1/5 : ℚ) : ℝ) ≤ (stereo_volume y : ℝ) := by
          exact_mod_cast hv.1
        have : ((1/5 : ℚ) : ℝ) = 1/5 := by norm_num
        linarith
      · exact_mod_cast hv.2
    calc Real.cos ((stereo_pan y : ℝ) * Real.pi / 4 + Real.pi / 4) *
          (stereo_volume y : ℝ) ≤
        |Real.cos ((stereo_pan y : ℝ) * Real.pi / 4 + Real.pi / 4) *
          (stereo_volume y : ℝ)| := le_abs_self _
      _ = |Real.cos ((stereo_pan y : ℝ) * Real.pi / 4 + Real.pi / 4)| *
          |(stereo_volume y : ℝ)| := abs_mul _ _
      _ ≤ 1 * 1 := mul_le_mul hc hv1 (abs_nonneg _) zero_le_one
      _ = 1 := mul_one 1
  refine ⟨stereo_volume_90_eq, left_gain_90_eq, ?_, ?_, ?_, ?_⟩
  · rw [right_gain_90_eq, Real.cos_zero, mul_one]
  · intro y
    rw [right_gain_90_eq]
    exact hmax y
  · unfold stereo_rotate
    rw [if_pos rfl, left_gain_90_eq]
    ring
  · unfold stereo_rotate
    rw [if_neg (by norm_num), if_pos rfl, right_gain_90_eq]
    ring

/-- Witness for the amended C8 at a concrete input. -/
theorem C8_amended_witness :
    stereo_volume 90 = 1 ∧ left_gain 90 = 0 ∧
    right_gain 90 = Real.cos 0 * 1 ∧
    (∀ y : ℚ, right_gain y ≤ right_gain 90) ∧
    stereo_rotate (fun _ => (1 : ℝ)) (fun _ => (1 : ℝ)) 90 0 0 = 0 ∧
    stereo_rotate (fun _ => (1 : ℝ)) (fun _ => (1 : ℝ)) 90 1 0 = 1 :=
  C8_amended_mono_yaw90 (fun _ => (1 : ℝ)) (fun _ => (1 : ℝ)) rfl 0

/-! ### Audio callback shape handling (`audio_io.py`, `sd_callback`) -/

/-- numpy `shape[1]` of a processing block modelled as a list of sample rows
(rectangular by construction in numpy). -/
def numCols (m : List (List ℝ)) : ℕ := (m.headD []).length

/-- numpy broadcast of a block against a `frames`-row target during slice
assignment: succeeds when the row counts match, broadcasts a single row,
raises a `ValueError` (modelled as `none`) otherwise. -/
def broadcastRows (m : List (List ℝ)) (frames : ℕ) :
    Option (List (List ℝ)) :=
  if m.length = frames then some m
  else if m.length = 1 then some (List.replicate frames (m.headD []))
  else none

/-- The `try:` body of `sd_callback` acting on the block returned by the
processing callback: if the block has fewer channels than
`self.output_channels` it is copied into `np.zeros((frames,
output_channels))` (zero padding on the right); then
`outdata[:] = result[:, :outdata.shape[1]]` truncates to the stream's
channel count.  A failing numpy assignment yields `none`. -/
def sd_try_output (result : List (List ℝ)) (frames output_channels : ℕ) :
    Option (List (List ℝ)) :=
  (if numCols result < output_channels then
    (broadcastRows result frames).map (fun rows =>
      rows.map (fun row =>
        row ++ List.replicate (output_channels - row.length) 0))
   else some result).bind (fun r1 =>
    broadcastRows (r1.map (fun row => row.take output_channels)) frames)

/-- Delivered output block of `sd_callback`, and whether a warning/error line
was printed: on any exception in the body the handler prints an error and
fills the output with silence (`outdata.fill(0)`); a channel-count mismatch
prints a warning. -/
def sd_callback_out (result : List (List ℝ)) (frames output_channels : ℕ) :
    List (List ℝ) × Bool :=
  match sd_try_output result frames output_channels with
  | some out => (out, decide (numCols result ≠ output_channels))
  | none => (List.replicate frames (List.replicate output_channels 0), true)

lemma broadcastRows_some {m out : List (List ℝ)} {frames : ℕ}
    (h : broadcastRows m frames = some out) :
    out.length = frames ∧ ∀ row ∈ out, row ∈ m := by
  unfold broadcastRows at h
  split_ifs at h with h1 h2
  · simp only [Option.some.injEq] at h
    subst h
    exact ⟨h1, fun row hr => hr⟩
  · simp only [Option.some.injEq] at h
    subst h
    refine ⟨List.length_replicate _ _, ?_⟩
    intro row hr
    rw [List.eq_of_mem_replicate hr]
    cases m with
    | nil => simp at h2
    | cons a t => exact List.mem_cons_self _ _

lemma sd_try_output_shape (result : List (List ℝ))
    (frames output_channels : ℕ)
    (hrect : ∀ row ∈ result, row.length = numCols result)
    {out : List (List ℝ)}
    (h : sd_try_output result frames output_channels = some out) :
    out.length = frames ∧ ∀ row ∈ out, row.length = output_channels := by
  unfold sd_try_output at h
  split_ifs at h with hc
  · cases hb : broadcastRows result frames with
    | none => rw [hb] at h; simp at h
    | some rows =>
      rw [hb] at h
      simp only [Option.map_some', Option.some_bind] at h
      obtain ⟨hlen, hmem⟩ := broadcastRows_some h
      refine ⟨hlen, ?_⟩
      intro row hr
      obtain ⟨row', hrow', rfl⟩ := List.mem_map.mp (hmem row hr)
      obtain ⟨row'', hrow'', rfl⟩ := List.mem_map.mp hrow'
      have hin : row'' ∈ result := (broadcastRows_some hb).2 row'' hrow''
      have hlen2 : row''.length = numCols result := hrect row'' hin
      rw [List.length_take, List.length_append, List.length_replicate,
        hlen2]
      omega
  · simp only [Option.some_bind] at h
    obtain ⟨hlen, hmem⟩ := broadcastRows_some h
    refine ⟨hlen, ?_⟩
    intro row hr
    obtain ⟨row', hrow', rfl⟩ := List.mem_map.mp (hmem row hr)
    have hlen2 : row'.length = numCols result := hrect row' hrow'
    rw [List.length_take, hlen2]
    omega

/-! ### Claim C9 -/

/-- C9: for every block produced by the processing callback, whatever its
shape, the audio boundary always delivers an output block of exactly
`frames × output_channels` (never a crash: numpy assignment errors are
caught and replaced by silence); a channel-count mismatch surfaces a
warning; with the right sample count the block is zero-padded when it has
too few channels and truncated when it has too many. -/
theorem C9_shape_mismatch_handled (result : List (List ℝ))
    (frames output_channels : ℕ)
    (hrect : ∀ row ∈ result, row.length = numCols result) :
    ((sd_callback_out result frames output_channels).1.length = frames ∧
     ∀ row ∈ (sd_callback_out result frames output_channels).1,
       row.length = output_channels) ∧
    (numCols result ≠ output_channels →
      (sd_callback_out result frames output_channels).2 = true) ∧
    (result.length = frames → numCols result < output_channels →
      (sd_callback_out result frames output_channels).1 =
        result.map (fun row =>
          row ++ List.replicate (output_channels - row.length) 0)) ∧
    (result.length = frames → output_channels ≤ numCols result →
      (sd_callback_out result frames output_channels).1 =
        result.map (fun row => row.take output_channels)) := by
  refine ⟨?_, ?_, ?_, ?_⟩
  · cases htry : sd_try_output result frames output_channels with
    | some out =>
      have hsh := sd_try_output_shape result frames output_channels hrect htry
      unfold sd_callback_out
      rw [htry]
      exact hsh
    | none =>
      unfold sd_callback_out
      rw [htry]
      refine ⟨by simp, ?_⟩
      intro row hr
      rw [List.eq_of_mem_replicate hr]
      simp
  · intro hne
    cases htry : sd_try_output result frames output_channels with
    | some out =>
      unfold sd_callback_out
      rw [htry]
      exact decide_eq_true hne
    | none =>
      unfold sd_callback_out
      rw [htry]
  · intro hf hc
    unfold sd_callback_out sd_try_output
    rw [if_pos hc,
      show broadcastRows result frames = some result by
        unfold broadcastRows; rw [if_pos hf]]
    simp only [Option.map_some', Option.some_bind]
    have h1 : (result.map (fun row =>
        row ++ List.replicate (output_channels - row.length) (0 : ℝ))).map
          (fun row => row.take output_channels) =
        result.map (fun row =>
          row ++ List.replicate (output_channels - row.length) 0) := by
      rw [List.map_map]
      apply List.map_congr_left
      intro row hrow
      have hl : row.length = numCols result := hrect row hrow
      have hlen : (row ++ List.replicate
          (output_channels - row.length) (0 : ℝ)).length ≤ output_channels := by
        rw [List.length_append, List.length_replicate]
        omega
      exact List.take_of_length_le hlen
    rw [h1,
      show broadcastRows (result.map (fun row =>
          row ++ List.replicate (output_channels - row.length) (0 : ℝ)))
          frames =
        some (result.map (fun row =>
          row ++ List.replicate (output_channels - row.length) 0)) by
        unfold broadcastRows
        rw [if_pos (by rw [List.length_map]; exact hf)]]
  · intro hf hge
    unfold sd_callback_out sd_try_output
    rw [if_neg (not_lt.mpr hge)]
    simp only [Option.some_bind]
    rw [show broadcastRows (result.map (fun row =>
        row.take output_channels)) frames =
        some (result.map (fun row => row.take output_channels)) by
      unfold broadcastRows
      rw [if_pos (by rw [List.length_map]; exact hf)]]

/-- Witness for C9 at a concrete mismatched block: a 2-sample stereo block
against a 4-channel 2-frame output. -/
theorem C9_witness :
    ((sd_callback_out [[1, 2], [3, 4]] 2 4).1.length = 2 ∧
     ∀ row ∈ (sd_callback_out [[(1 : ℝ), 2], [3, 4]] 2 4).1,
       row.length = 4) ∧
    (numCols [[(1 : ℝ), 2], [3, 4]] ≠ 4 →
      (sd_callback_out [[(1 : ℝ), 2], [3, 4]] 2 4).2 = true) ∧
    ((2 : ℕ) = 2 → numCols [[(1 : ℝ), 2], [3, 4]] < 4 →
      (sd_callback_out [[(1 : ℝ), 2], [3, 4]] 2 4).1 =
        [[(1 : ℝ), 2], [3, 4]].map (fun row =>
          row ++ List.replicate (4 - row.length) 0)) ∧
    ((2 : ℕ) = 2 → 4 ≤ numCols [[(1 : ℝ), 2], [3, 4]] →
      (sd_callback_out [[(1 : ℝ), 2], [3, 4]] 2 4).1 =
        [[(1 : ℝ), 2], [3, 4]].map (fun row => row.take 4)) :=
  C9_shape_mismatch_handled [[(1 : ℝ), 2], [3, 4]] 2 4
    (by intro row hr; fin_cases hr <;> rfl)
